import Mathlib

/-!
# upb arena tagged words and Objective-C enum field generation

A shallow embedding of

* `upb/upb/mem/internal/arena.h`: the helpers that pack a parent pointer or a
  reference count into `parent_or_count`, and an allocator pointer plus a flag
  into `block_alloc`;
* `src/google/protobuf/compiler/objectivec/enum_field.cc`: `SetEnumVariables`
  and `EnumFieldGenerator::DetermineForwardDeclarations`.

Conventions.  A `uintptr_t` of width `w` is a natural number below `2 ^ w`;
every C operation that can leave that range is followed by `% 2 ^ w`.
A pointer is its address, so the casts between `upb_Arena*` / `upb_alloc*`
and `uintptr_t` are the identity.  `UPB_ASSERT` is modelled as in a build
with assertions enabled: a function whose assertion fails returns `none`.
-/

namespace Upb

/-! ## Machine words -/

/-- Addition of two `uintptr_t` values of width `w`. -/
def wordAdd (w x y : Nat) : Nat := (x + y) % 2 ^ w

/-- Subtraction of two `uintptr_t` values of width `w` (wraps around). -/
def wordSub (w x y : Nat) : Nat := (x + (2 ^ w - y % 2 ^ w)) % 2 ^ w

/-- Conversion of a signed `int` value to a `uintptr_t` of width `w`. -/
def wordOfInt (w : Nat) (i : Int) : Nat := (i % (2 : Int) ^ w).toNat

/-- The C operator `~` on a signed `int` (two's complement). -/
def intComplement (i : Int) : Int := -i - 1

/-! ## `struct upb_Arena` -/

/-- The arena node.  `_upb_ArenaHead` is declared in another header and is a
type parameter here; pointers are addresses. -/
structure upb_Arena (ArenaHead : Type) where
  head : ArenaHead
  block_alloc : Nat
  parent_or_count : Nat
  next : Nat
  tail : Nat
  blocks : Nat

/-! ## `parent_or_count` helpers -/

/-- Returns `(parent_or_count & 1) == 1`. -/
def _upb_Arena_IsTaggedRefcount (parent_or_count : Nat) : Bool :=
  (parent_or_count &&& 1) == 1

/-- Returns `(parent_or_count & 1) == 0`. -/
def _upb_Arena_IsTaggedPointer (parent_or_count : Nat) : Bool :=
  (parent_or_count &&& 1) == 0

/-- Asserts the refcount tag, then `parent_or_count >> 1`. -/
def _upb_Arena_RefCountFromTagged (parent_or_count : Nat) : Option Nat :=
  if _upb_Arena_IsTaggedRefcount parent_or_count then
    some (parent_or_count >>> 1)
  else none

/-- Computes `(refcount << 1) | 1` on a `w`-bit word, then asserts the refcount tag. -/
def _upb_Arena_TaggedFromRefcount (w refcount : Nat) : Option Nat :=
  let parent_or_count := ((refcount <<< 1) % 2 ^ w) ||| 1
  if _upb_Arena_IsTaggedRefcount parent_or_count then
    some parent_or_count
  else none

/-- Asserts the pointer tag, then casts the word to `upb_Arena*`. -/
def _upb_Arena_PointerFromTagged (parent_or_count : Nat) : Option Nat :=
  if _upb_Arena_IsTaggedPointer parent_or_count then
    some parent_or_count
  else none

/-- Casts the pointer to a word, then asserts the pointer tag. -/
def _upb_Arena_TaggedFromPointer (a : Nat) : Option Nat :=
  let parent_or_count := a
  if _upb_Arena_IsTaggedPointer parent_or_count then
    some parent_or_count
  else none

/-! ## `block_alloc` helpers -/

/-- Returns `arena->block_alloc & ~0x1`: the `int` constant `~0x1` is converted to
`uintptr_t` before the bitwise and. -/
def upb_Arena_BlockAlloc {H : Type} (w : Nat) (arena : upb_Arena H) : Nat :=
  arena.block_alloc &&& wordOfInt w (intComplement 1)

/-- Asserts `(alloc_uint & 1) == 0`, then `alloc_uint | (has_initial ? 1 : 0)`. -/
def upb_Arena_MakeBlockAlloc (alloc : Nat) (has_initial : Bool) : Option Nat :=
  let alloc_uint := alloc
  if (alloc_uint &&& 1) == 0 then
    some (alloc_uint ||| (if has_initial then 1 else 0))
  else none

/-- Returns `arena->block_alloc & 0x1`, converted to `bool`. -/
def upb_Arena_HasInitialBlock {H : Type} (arena : upb_Arena H) : Bool :=
  (arena.block_alloc &&& 1) != 0

end Upb

namespace ObjC

/-! ## Objective-C enum field generator -/

/-- The `variables_` map, `absl::flat_hash_map<absl::string_view, std::string>`:
a key is absent (`none`) or bound to a string. -/
abbrev Variables := String → Option String

/-- The statement `(*vars)[key] = value`: binds `key`, replacing an earlier binding. -/
def Variables.assign (vars : Variables) (key value : String) : Variables :=
  fun k => if k = key then some value else vars k

/-- The part of a `FieldDescriptor` that the generator reads.  `F` is the type
of `FileDescriptor*` values (compared by identity), `E` of `EnumDescriptor*`
and `D` of `Descriptor*`. -/
structure FieldDescriptor (F E D : Type) where
  file : F
  enum_type : E
  is_repeated : Bool
  containing_type : D

/-- Functions the generator calls that are declared in other headers
(`descriptor.h`, `names.h`, `field.h`); they are parameters of the model. -/
structure Collaborators (F E D : Type) where
  /-- The accessor `EnumDescriptor::file()`. -/
  enumFile : E → F
  /-- The function `EnumName(const EnumDescriptor*)` of `names.h`. -/
  EnumName : E → String
  /-- The function `ClassName(const Descriptor*)` of `names.h`. -/
  ClassName : D → String
  /-- The function `IsProtobufLibraryBundledProtoFile(const FileDescriptor*)` of `names.h`. -/
  IsProtobufLibraryBundledProtoFile : F → Bool
  /-- The `variables_` left by the constructor `SingleFieldGenerator(descriptor)`. -/
  singleFieldVariables : FieldDescriptor F E D → Variables
  /-- The method `SingleFieldGenerator::DetermineForwardDeclarations`, as a function of the
  generator's state and of the set it is given. -/
  singleFieldForwardDeclarations :
    FieldDescriptor F E D → Variables → Finset String → Bool → Finset String

variable {F E D : Type} [DecidableEq F]

/-- The function `SetEnumVariables`. -/
def SetEnumVariables (cx : Collaborators F E D) (descriptor : FieldDescriptor F E D)
    (vars : Variables) : Variables :=
  let type := cx.EnumName descriptor.enum_type
  let enum_desc_func := type ++ "_EnumDescriptor"
  let vars := vars.assign "enum_name" type
  let vars :=
    if !descriptor.is_repeated && (descriptor.file != cx.enumFile descriptor.enum_type) then
      vars.assign "property_type" ("enum " ++ type ++ " ")
    else vars
  let vars := vars.assign "enum_verifier" (type ++ "_IsValidValue")
  let vars := vars.assign "enum_desc_func" enum_desc_func
  let vars := vars.assign "dataTypeSpecific_name" "enumDescFunc"
  let vars := vars.assign "dataTypeSpecific_value" enum_desc_func
  let msg_descriptor := descriptor.containing_type
  vars.assign "owning_message_class" (cx.ClassName msg_descriptor)

/-- The state of an `EnumFieldGenerator`: the members `descriptor_` and `variables_`. -/
structure EnumFieldGenerator (F E D : Type) where
  descriptor_ : FieldDescriptor F E D
  variables_ : Variables

/-- The constructor `EnumFieldGenerator(descriptor)`: the base constructor
fills `variables_`, then `SetEnumVariables` runs on it. -/
def EnumFieldGenerator.new (cx : Collaborators F E D) (descriptor : FieldDescriptor F E D) :
    EnumFieldGenerator F E D :=
  { descriptor_ := descriptor
    variables_ := SetEnumVariables cx descriptor (cx.singleFieldVariables descriptor) }

/-- The accessor `variable(key)` of `field.h`, which returns
`variables_.find(key)->second`; a missing key has no defined result and is `none`. -/
def EnumFieldGenerator.variable_ (g : EnumFieldGenerator F E D) (key : String) : Option String :=
  g.variables_ key

/-- The method `EnumFieldGenerator::DetermineForwardDeclarations`; the result
is the final content of `*fwd_decls`. -/
def EnumFieldGenerator.DetermineForwardDeclarations (cx : Collaborators F E D)
    (g : EnumFieldGenerator F E D) (fwd_decls : Finset String)
    (include_external_types : Bool) : Option (Finset String) :=
  let fwd_decls :=
    cx.singleFieldForwardDeclarations g.descriptor_ g.variables_ fwd_decls include_external_types
  if include_external_types &&
      (g.descriptor_.file != cx.enumFile g.descriptor_.enum_type) &&
      !cx.IsProtobufLibraryBundledProtoFile (cx.enumFile g.descriptor_.enum_type) then
    (g.variable_ "enum_name").map fun name =>
      insert ("GPB_ENUM_FWD_DECLARE(" ++ name ++ ");") fwd_decls
  else some fwd_decls

end ObjC

/-! ## Arithmetic helpers -/

namespace Upb

theorem shl1 (x : Nat) : x <<< 1 = 2 * x := by
  rw [Nat.shiftLeft_eq]; omega

theorem shr1 (x : Nat) : x >>> 1 = x / 2 := by
  rw [Nat.shiftRight_eq_div_pow]

theorem two_mul_lor_one (k : Nat) : (2 * k) ||| 1 = 2 * k + 1 := by
  have h := Nat.mul_add_lt_is_or (i := 1) (b := 1) (by decide) k
  simpa using h.symm

theorem even_lor_one (x : Nat) (h : x % 2 = 0) : x ||| 1 = x + 1 := by
  have hx : x = 2 * (x / 2) := by omega
  rw [hx, two_mul_lor_one]

theorem two_pow_pred (w : Nat) (hw : 0 < w) : 2 ^ w = 2 * 2 ^ (w - 1) := by
  obtain ⟨k, rfl⟩ : ∃ k, w = k + 1 := ⟨w - 1, by omega⟩
  simp [pow_succ, Nat.mul_comm]

theorem two_le_two_pow (w : Nat) (hw : 0 < w) : 2 ≤ 2 ^ w := by
  have h1 := two_pow_pred w hw
  have h2 : 0 < 2 ^ (w - 1) := Nat.two_pow_pos _
  omega

theorem wordOfInt_neg_two (w : Nat) (hw : 0 < w) :
    ((-(1:Int) - 1) % (2 : Int) ^ w).toNat = 2 ^ w - 2 := by
  have h2 := two_le_two_pow w hw
  have e : ((-(1:Int) - 1) % (2 : Int) ^ w) = ((2 ^ w - 2 : Nat) : Int) := by
    rw [← Int.add_emod_self]
    have hc : ((2 ^ w - 2 : Nat) : Int) = (2:Int) ^ w - 2 := by
      rw [Nat.cast_sub h2]; simp
    rw [hc]
    have hp : (2:Int) ≤ (2:Int) ^ w := by exact_mod_cast h2
    rw [Int.emod_eq_of_lt] <;> omega
  rw [e]; simp

theorem and_mask (w x : Nat) (hx : x < 2 ^ w) : x &&& (2 ^ w - 2) = x - x % 2 := by
  rcases Nat.eq_zero_or_pos w with rfl | hw
  · have : x = 0 := by simpa using hx
    subst this; simp
  have hm : 2 ^ w - 2 = 2 * (2 ^ (w - 1) - 1) := by
    have := two_pow_pred w hw; omega
  have hx2 : x - x % 2 = 2 * (x / 2) := by omega
  rw [hm, hx2]
  apply Nat.eq_of_testBit_eq
  intro i
  rw [Nat.testBit_and]
  cases i with
  | zero => simp [Nat.testBit_zero]
  | succ i =>
    rw [Nat.testBit_succ, Nat.testBit_succ, Nat.testBit_succ]
    simp only [Nat.mul_div_cancel_left _ (show 0 < 2 by decide), Nat.testBit_two_pow_sub_one]
    by_cases hi : i < w - 1
    · simp [hi]
    · simp only [hi, decide_False, Bool.and_false]
      have : x / 2 < 2 ^ i := by
        have h1 : 2 ^ (w - 1) ≤ 2 ^ i := Nat.pow_le_pow_right (by decide) (by omega)
        have h2 := two_pow_pred w hw
        omega
      exact (Nat.testBit_lt_two_pow this).symm

end Upb

namespace Upb

/-! ## Facts about the tag predicates -/

theorem isTaggedRefcount_eq (x : Nat) :
    _upb_Arena_IsTaggedRefcount x = decide (x % 2 = 1) := by
  unfold _upb_Arena_IsTaggedRefcount
  rw [Nat.and_one_is_mod]
  by_cases h : x % 2 = 1 <;> simp [h]

theorem isTaggedPointer_eq (x : Nat) :
    _upb_Arena_IsTaggedPointer x = decide (x % 2 = 0) := by
  unfold _upb_Arena_IsTaggedPointer
  rw [Nat.and_one_is_mod]
  by_cases h : x % 2 = 0 <;> simp [h]

theorem taggedFromRefcount_eq (w n : Nat) (hw : 0 < w) :
    _upb_Arena_TaggedFromRefcount w n = some (2 * (n % 2 ^ (w - 1)) + 1) := by
  have hword : ((n <<< 1) % 2 ^ w) ||| 1 = 2 * (n % 2 ^ (w - 1)) + 1 := by
    rw [shl1, two_pow_pred w hw, Nat.mul_mod_mul_left, two_mul_lor_one]
  simp only [_upb_Arena_TaggedFromRefcount, hword, isTaggedRefcount_eq]
  have : (2 * (n % 2 ^ (w - 1)) + 1) % 2 = 1 := by omega
  simp [this]

theorem refCountFromTagged_odd (k : Nat) :
    _upb_Arena_RefCountFromTagged (2 * k + 1) = some k := by
  have h1 : (2 * k + 1) % 2 = 1 := by omega
  have h2 : (2 * k + 1) / 2 = k := by omega
  simp [_upb_Arena_RefCountFromTagged, isTaggedRefcount_eq, h1, shr1, h2]

theorem wordOfInt_complement_one (w : Nat) (hw : 0 < w) :
    wordOfInt w (intComplement 1) = 2 ^ w - 2 := by
  unfold wordOfInt intComplement
  exact wordOfInt_neg_two w hw

theorem wordSub_wordAdd_two (w x : Nat) (hw : 0 < w) (hx : x < 2 ^ w) :
    wordSub w (wordAdd w x 2) 2 = x := by
  unfold wordSub wordAdd
  rw [Nat.mod_add_mod]
  have h2 := two_le_two_pow w hw
  have hle : 2 % 2 ^ w ≤ 2 := Nat.mod_le _ _
  rcases Nat.lt_or_ge 2 (2 ^ w) with h | h
  · rw [Nat.mod_eq_of_lt h]
    have e : x + 2 + (2 ^ w - 2) = x + 2 ^ w := by omega
    rw [e, Nat.add_mod_right, Nat.mod_eq_of_lt hx]
  · have e2 : 2 ^ w = 2 := by omega
    rw [e2] at hx ⊢
    omega

end Upb

namespace Upb

/-! ## Claims about `parent_or_count` and `block_alloc` -/

/-- C1: for a `w`-bit word and every refcount `n < 2 ^ (w - 1)`, encoding with
`_upb_Arena_TaggedFromRefcount` succeeds, yields a word below `2 ^ w`, and
decoding that word with `_upb_Arena_RefCountFromTagged` returns `n`. -/
theorem refcount_round_trip (w n : Nat) (hw : 0 < w) (hn : n < 2 ^ (w - 1)) :
    ∃ t, _upb_Arena_TaggedFromRefcount w n = some t ∧ t < 2 ^ w ∧
      _upb_Arena_RefCountFromTagged t = some n := by
  refine ⟨2 * n + 1, ?_, ?_, refCountFromTagged_odd n⟩
  · rw [taggedFromRefcount_eq w n hw, Nat.mod_eq_of_lt hn]
  · have := two_pow_pred w hw
    omega

theorem refcount_round_trip_witness :
    ∃ t, _upb_Arena_TaggedFromRefcount 64 5 = some t ∧ t < 2 ^ 64 ∧
      _upb_Arena_RefCountFromTagged t = some 5 :=
  refcount_round_trip 64 5 (by decide) (by decide)

/-- C2: for every word `x` exactly one of `_upb_Arena_IsTaggedRefcount x` and
`_upb_Arena_IsTaggedPointer x` holds, and the low bit of `x` alone decides
which: refcount iff the low bit is 1, pointer iff the low bit is 0. -/
theorem tag_interpretations_exclusive (x : Nat) :
    (_upb_Arena_IsTaggedRefcount x = !_upb_Arena_IsTaggedPointer x) ∧
    (_upb_Arena_IsTaggedRefcount x = x.testBit 0) ∧
    (_upb_Arena_IsTaggedPointer x = !x.testBit 0) := by
  rw [isTaggedRefcount_eq, isTaggedPointer_eq, Nat.testBit_zero]
  rcases Nat.mod_two_eq_zero_or_one x with h | h <;> simp [h]

/-- C3: for every refcount `n` and every width, `_upb_Arena_TaggedFromRefcount`
passes its assertion, and the word it returns satisfies
`_upb_Arena_IsTaggedRefcount` and not `_upb_Arena_IsTaggedPointer`. -/
theorem taggedFromRefcount_is_root_word (w n : Nat) :
    ∃ t, _upb_Arena_TaggedFromRefcount w n = some t ∧
      _upb_Arena_IsTaggedRefcount t = true ∧ _upb_Arena_IsTaggedPointer t = false := by
  have h : (((n <<< 1) % 2 ^ w) ||| 1) % 2 = 1 := Nat.or_mod_two_eq_one.mpr (Or.inr rfl)
  refine ⟨((n <<< 1) % 2 ^ w) ||| 1, ?_, ?_, ?_⟩
  · simp [_upb_Arena_TaggedFromRefcount, isTaggedRefcount_eq, h]
  · simp [isTaggedRefcount_eq, h]
  · simp [isTaggedPointer_eq, h]

/-- C4: for every address `p` with low bit 0, `_upb_Arena_TaggedFromPointer p`
passes its assertion and returns `p`, which is a tagged pointer and not a
tagged refcount, and `_upb_Arena_PointerFromTagged` of it returns `p`; the
assertion of `_upb_Arena_TaggedFromPointer` fails exactly when the low bit of
`p` is 1. -/
theorem pointer_round_trip (p : Nat) :
    (p % 2 = 0 →
      _upb_Arena_TaggedFromPointer p = some p ∧
      _upb_Arena_IsTaggedPointer p = true ∧
      _upb_Arena_IsTaggedRefcount p = false ∧
      (_upb_Arena_TaggedFromPointer p).bind _upb_Arena_PointerFromTagged = some p) ∧
    (_upb_Arena_TaggedFromPointer p = none ↔ p % 2 = 1) := by
  constructor
  · intro h
    simp [_upb_Arena_TaggedFromPointer, _upb_Arena_PointerFromTagged, isTaggedPointer_eq,
      isTaggedRefcount_eq, h]
  · rcases Nat.mod_two_eq_zero_or_one p with h | h <;>
      simp [_upb_Arena_TaggedFromPointer, isTaggedPointer_eq, h]

theorem pointer_round_trip_witness :
    4096 % 2 = 0 ∧
    _upb_Arena_TaggedFromPointer 4096 = some 4096 ∧
    _upb_Arena_IsTaggedPointer 4096 = true ∧
    _upb_Arena_IsTaggedRefcount 4096 = false ∧
    (_upb_Arena_TaggedFromPointer 4096).bind _upb_Arena_PointerFromTagged = some 4096 :=
  ⟨by decide, (pointer_round_trip 4096).1 (by decide)⟩

/-- C5: for a `w`-bit word, every allocator address `a < 2 ^ w` with low bit 0
and every flag `has_initial`, `upb_Arena_MakeBlockAlloc a has_initial` passes
its assertion and returns a `w`-bit word, and every arena whose `block_alloc`
field holds that word gives `upb_Arena_BlockAlloc = a` and
`upb_Arena_HasInitialBlock = has_initial`. -/
theorem block_alloc_lossless (w a : Nat) (has_initial : Bool)
    (hw : 0 < w) (ha : a < 2 ^ w) (hlow : a % 2 = 0) :
    ∃ v, upb_Arena_MakeBlockAlloc a has_initial = some v ∧ v < 2 ^ w ∧
      ∀ (H : Type) (arena : upb_Arena H), arena.block_alloc = v →
        upb_Arena_BlockAlloc w arena = a ∧ upb_Arena_HasInitialBlock arena = has_initial := by
  have hpw := two_pow_pred w hw
  have hmake : upb_Arena_MakeBlockAlloc a has_initial
      = some (a ||| (if has_initial then 1 else 0)) := by
    simp [upb_Arena_MakeBlockAlloc, Nat.and_one_is_mod, hlow]
  refine ⟨_, hmake, ?_, ?_⟩
  · cases has_initial with
    | false => simpa using ha
    | true =>
      simp only [if_true]
      rw [even_lor_one a hlow]
      omega
  · intro H arena hb
    unfold upb_Arena_BlockAlloc upb_Arena_HasInitialBlock
    rw [wordOfInt_complement_one w hw, hb, Nat.and_one_is_mod]
    cases has_initial with
    | false =>
      have e : a ||| 0 = a := by simp
      simp only [Bool.false_eq_true, if_false, e]
      rw [and_mask w a ha]
      constructor
      · omega
      · simp [hlow]
    | true =>
      simp only [if_true]
      rw [even_lor_one a hlow, and_mask w (a + 1) (by omega)]
      have h1 : (a + 1) % 2 = 1 := by omega
      constructor
      · omega
      · simp [h1]

theorem block_alloc_lossless_witness :
    ∃ v, upb_Arena_MakeBlockAlloc 18446744073709551600 true = some v ∧ v < 2 ^ 64 ∧
      ∀ (H : Type) (arena : upb_Arena H), arena.block_alloc = v →
        upb_Arena_BlockAlloc 64 arena = 18446744073709551600 ∧
        upb_Arena_HasInitialBlock arena = true :=
  block_alloc_lossless 64 18446744073709551600 true (by decide) (by decide) (by decide)

/-- C6: for a `w`-bit word and refcounts `a`, `b` with `a + b < 2 ^ (w - 1)`,
the word `_upb_Arena_TaggedFromRefcount a + 2 * b` (modulo `2 ^ w`) is a
tagged refcount whose decoded count is `a + b`, and it is the word
`_upb_Arena_TaggedFromRefcount (a + b)`; adding 2 to any word and then
subtracting 2 returns the word; and when 2 is representable, two roots of
refcount 1 combine to refcount 2. -/
theorem refcount_sum_on_tagged_word (w a b : Nat) (hw : 0 < w) (hab : a + b < 2 ^ (w - 1)) :
    (∃ ta, _upb_Arena_TaggedFromRefcount w a = some ta ∧
      _upb_Arena_IsTaggedRefcount (wordAdd w ta (2 * b)) = true ∧
      _upb_Arena_RefCountFromTagged (wordAdd w ta (2 * b)) = some (a + b) ∧
      _upb_Arena_TaggedFromRefcount w (a + b) = some (wordAdd w ta (2 * b))) ∧
    (∀ x, x < 2 ^ w → wordSub w (wordAdd w x 2) 2 = x) ∧
    (2 < 2 ^ (w - 1) → ∃ t1, _upb_Arena_TaggedFromRefcount w 1 = some t1 ∧
      _upb_Arena_RefCountFromTagged (wordAdd w t1 (2 * 1)) = some 2) := by
  have hpw := two_pow_pred w hw
  have key : ∀ c d : Nat, c + d < 2 ^ (w - 1) →
      _upb_Arena_TaggedFromRefcount w c = some (2 * c + 1) ∧
      wordAdd w (2 * c + 1) (2 * d) = 2 * (c + d) + 1 := by
    intro c d hcd
    constructor
    · rw [taggedFromRefcount_eq w c hw, Nat.mod_eq_of_lt (by omega)]
    · unfold wordAdd
      rw [Nat.mod_eq_of_lt (by omega)]
      omega
  refine ⟨⟨2 * a + 1, (key a b hab).1, ?_, ?_, ?_⟩, ?_, ?_⟩
  · rw [(key a b hab).2, isTaggedRefcount_eq]
    have : (2 * (a + b) + 1) % 2 = 1 := by omega
    simp [this]
  · rw [(key a b hab).2, refCountFromTagged_odd]
  · rw [(key a b hab).2, taggedFromRefcount_eq w (a + b) hw, Nat.mod_eq_of_lt hab]
  · intro x hx
    exact wordSub_wordAdd_two w x hw hx
  · intro h2
    refine ⟨2 * 1 + 1, (key 1 1 h2).1, ?_⟩
    rw [(key 1 1 h2).2, refCountFromTagged_odd]

theorem refcount_sum_on_tagged_word_witness :
    (∃ ta, _upb_Arena_TaggedFromRefcount 64 1 = some ta ∧
      _upb_Arena_IsTaggedRefcount (wordAdd 64 ta (2 * 1)) = true ∧
      _upb_Arena_RefCountFromTagged (wordAdd 64 ta (2 * 1)) = some (1 + 1) ∧
      _upb_Arena_TaggedFromRefcount 64 (1 + 1) = some (wordAdd 64 ta (2 * 1))) ∧
    (∀ x, x < 2 ^ 64 → wordSub 64 (wordAdd 64 x 2) 2 = x) ∧
    (2 < 2 ^ (64 - 1) → ∃ t1, _upb_Arena_TaggedFromRefcount 64 1 = some t1 ∧
      _upb_Arena_RefCountFromTagged (wordAdd 64 t1 (2 * 1)) = some 2) :=
  refcount_sum_on_tagged_word 64 1 1 (by decide) (by decide)

/-- C9: for a `w`-bit word and every refcount `n`, encoding then decoding
passes both assertions and returns `n % 2 ^ (w - 1)`; every tagged refcount
word decodes to at most `2 ^ (w - 1) - 1`, and that count is represented
exactly; at `n = 2 ^ (w - 1)` the round trip returns 0, not `n`. -/
theorem refcount_round_trip_drops_top_bit (w n : Nat) (hw : 0 < w) :
    (∃ t, _upb_Arena_TaggedFromRefcount w n = some t ∧
      _upb_Arena_RefCountFromTagged t = some (n % 2 ^ (w - 1))) ∧
    (∀ x c, x < 2 ^ w → _upb_Arena_RefCountFromTagged x = some c → c ≤ 2 ^ (w - 1) - 1) ∧
    (_upb_Arena_TaggedFromRefcount w (2 ^ (w - 1) - 1)).bind _upb_Arena_RefCountFromTagged
      = some (2 ^ (w - 1) - 1) ∧
    (_upb_Arena_TaggedFromRefcount w (2 ^ (w - 1))).bind _upb_Arena_RefCountFromTagged
      = some 0 ∧
    (0 : Nat) ≠ 2 ^ (w - 1) := by
  have hpw := two_pow_pred w hw
  have hpos : 0 < 2 ^ (w - 1) := Nat.two_pow_pos _
  refine ⟨⟨_, taggedFromRefcount_eq w n hw, refCountFromTagged_odd _⟩, ?_, ?_, ?_, ?_⟩
  · intro x c hx hc
    unfold _upb_Arena_RefCountFromTagged at hc
    split at hc
    · have hc2 : x >>> 1 = c := Option.some.inj hc
      rw [shr1] at hc2
      omega
    · exact absurd hc (by simp)
  · rw [taggedFromRefcount_eq w _ hw, Nat.mod_eq_of_lt (by omega)]
    exact refCountFromTagged_odd _
  · rw [taggedFromRefcount_eq w _ hw, Nat.mod_self]
    exact refCountFromTagged_odd 0
  · omega

theorem refcount_round_trip_drops_top_bit_witness :
    (∃ t, _upb_Arena_TaggedFromRefcount 64 (2 ^ 63 + 7) = some t ∧
      _upb_Arena_RefCountFromTagged t = some ((2 ^ 63 + 7) % 2 ^ (64 - 1))) ∧
    (∀ x c, x < 2 ^ 64 → _upb_Arena_RefCountFromTagged x = some c → c ≤ 2 ^ (64 - 1) - 1) ∧
    (_upb_Arena_TaggedFromRefcount 64 (2 ^ (64 - 1) - 1)).bind _upb_Arena_RefCountFromTagged
      = some (2 ^ (64 - 1) - 1) ∧
    (_upb_Arena_TaggedFromRefcount 64 (2 ^ (64 - 1))).bind _upb_Arena_RefCountFromTagged
      = some 0 ∧
    (0 : Nat) ≠ 2 ^ (64 - 1) :=
  refcount_round_trip_drops_top_bit 64 (2 ^ 63 + 7) (by decide)

end Upb

namespace ObjC

variable {F E D : Type} [DecidableEq F]

/-! ## Claims about the enum field generator -/

theorem enum_name_after_setEnumVariables (cx : Collaborators F E D)
    (descriptor : FieldDescriptor F E D) (vars : Variables) :
    SetEnumVariables cx descriptor vars "enum_name"
      = some (cx.EnumName descriptor.enum_type) := by
  unfold SetEnumVariables
  split <;> simp [Variables.assign]

/-- C7: for a generator built by its constructor, `DetermineForwardDeclarations`
returns the set left by `SingleFieldGenerator::DetermineForwardDeclarations`
with `GPB_ENUM_FWD_DECLARE(<enum name>);` inserted when `include_external_types`
holds, the field's file differs from the enum's file and the enum's file is not
a bundled file, and returns that set unchanged in every other case. -/
theorem determineForwardDeclarations_spec (cx : Collaborators F E D)
    (descriptor : FieldDescriptor F E D) (fwd_decls : Finset String)
    (include_external_types : Bool) :
    (EnumFieldGenerator.new cx descriptor).DetermineForwardDeclarations cx fwd_decls
        include_external_types
      = some
        (if include_external_types = true ∧
            descriptor.file ≠ cx.enumFile descriptor.enum_type ∧
            cx.IsProtobufLibraryBundledProtoFile (cx.enumFile descriptor.enum_type) = false then
          insert ("GPB_ENUM_FWD_DECLARE(" ++ cx.EnumName descriptor.enum_type ++ ");")
            (cx.singleFieldForwardDeclarations descriptor
              (EnumFieldGenerator.new cx descriptor).variables_ fwd_decls include_external_types)
        else
          cx.singleFieldForwardDeclarations descriptor
            (EnumFieldGenerator.new cx descriptor).variables_ fwd_decls
            include_external_types) := by
  unfold EnumFieldGenerator.DetermineForwardDeclarations EnumFieldGenerator.variable_
  simp only [EnumFieldGenerator.new, enum_name_after_setEnumVariables]
  by_cases h1 : include_external_types = true <;>
    by_cases h2 : descriptor.file = cx.enumFile descriptor.enum_type <;>
    by_cases h3 : cx.IsProtobufLibraryBundledProtoFile (cx.enumFile descriptor.enum_type) = true <;>
    simp [h1, h2, h3]

/-- C8: `SetEnumVariables` binds `property_type` to `"enum " ++ name ++ " "`
when the field is not repeated and its file differs from the enum's file, and
otherwise leaves the binding of `property_type` as it was; in every case it
binds `enum_name` to the name, `enum_verifier` to `name ++ "_IsValidValue"`,
and `enum_desc_func` and `dataTypeSpecific_value` to
`name ++ "_EnumDescriptor"`. -/
theorem setEnumVariables_spec (cx : Collaborators F E D)
    (descriptor : FieldDescriptor F E D) (vars : Variables) :
    SetEnumVariables cx descriptor vars "property_type"
      = (if descriptor.is_repeated = false ∧
            descriptor.file ≠ cx.enumFile descriptor.enum_type then
          some ("enum " ++ cx.EnumName descriptor.enum_type ++ " ")
        else vars "property_type") ∧
    SetEnumVariables cx descriptor vars "enum_name"
      = some (cx.EnumName descriptor.enum_type) ∧
    SetEnumVariables cx descriptor vars "enum_verifier"
      = some (cx.EnumName descriptor.enum_type ++ "_IsValidValue") ∧
    SetEnumVariables cx descriptor vars "enum_desc_func"
      = some (cx.EnumName descriptor.enum_type ++ "_EnumDescriptor") ∧
    SetEnumVariables cx descriptor vars "dataTypeSpecific_value"
      = some (cx.EnumName descriptor.enum_type ++ "_EnumDescriptor") := by
  refine ⟨?_, enum_name_after_setEnumVariables cx descriptor vars, ?_, ?_, ?_⟩
  · unfold SetEnumVariables
    by_cases h1 : descriptor.is_repeated = true <;>
      by_cases h2 : descriptor.file = cx.enumFile descriptor.enum_type <;>
      simp [Variables.assign, h1, h2]
  all_goals
    unfold SetEnumVariables
    split <;> simp [Variables.assign]

end ObjC
